import Mathlib

/-!
# Verification of the dnscrawler resolver core

Shallow embedding of the parts of the CAIDA/dnscrawler repository that the
specification's testable claims are about, together with theorems settling
each claim.  Python source files embedded here:

* `dnscrawler/lrucache.py`     — `LRUCache` (capacity, `set`, eviction order)
* `dnscrawler/pydns.py`        — `PyDNS.query` cache key, `PyDNS.dns_request`
  rcode compilation
* `dnscrawler/ratelimiter.py`  — `RateLimiter.run` / `reset_limit`
* `dnscrawler/nodelist.py`     — `NodeList.add` merge
* `dnscrawler/node.py`         — `Node.__init__` parent-zone relation,
  `Node.infer_node_type`
* `dnscrawler/dnsresolver.py`  — `DNSResolver.map_name` local-variable
  prologue, phase classification, resolution-cache effects, and
  `get_host_dependencies` per-crawl reset.

Python dictionaries are modelled as association lists keyed by their real
keys (first binding wins on lookup; updates rewrite the existing binding),
sets as lists with membership semantics, and hostnames as their canonical
label lists: the canonical Python form `"ns1.example.com."` (lower-cased,
trailing root label) is the list `["ns1", "example", "com"]`, and the root
`"."` is `[]`.
-/

namespace Dnscrawler

/-- Look up a key in an association list (Python `dict` access). -/
def alookup {α β : Type} [DecidableEq α] (k : α) : List (α × β) → Option β
  | [] => none
  | (a, b) :: rest => if a = k then some b else alookup k rest

/-- Replace the value bound to a key in an association list, keeping the
binding's position (Python `d[k] = v` on an existing key). -/
def aupdate {α β : Type} [DecidableEq α] (k : α) (v : β) :
    List (α × β) → List (α × β)
  | [] => []
  | (a, b) :: rest =>
    if a = k then (a, v) :: rest else (a, b) :: aupdate k v rest

/-- Python `set.update` / `set.add` iterated: keep the old elements and
append the new ones that are not yet present. -/
def listUnion {α : Type} [DecidableEq α] (xs ys : List α) : List α :=
  xs ++ ys.filter (fun y => y ∉ xs)

/-! ## LRUCache (`dnscrawler/lrucache.py`)

The cache is an `OrderedDict`; we model it as a list of key/value pairs in
order from least recently used (front, what `popitem(last=False)` removes)
to most recently used (back, where `move_to_end` puts a key).  A capacity
of `none` models Python `capacity=None` (plain dict, no eviction). -/

structure LRUCache (K V : Type) where
  capacity : Option Nat
  entries : List (K × V)

namespace LRUCache

variable {K V : Type} [DecidableEq K]

/-- `LRUCache.size`: `len(self.cache)`. -/
def size (c : LRUCache K V) : Nat := c.entries.length

/-- `LRUCache.is_full`: `self.size() == self.capacity`.  In Python a
comparison of an `int` with `None` is `False`, hence the `Option` match. -/
def is_full (c : LRUCache K V) : Bool :=
  match c.capacity with
  | none => false
  | some cap => c.size == cap

/-- `LRUCache.pop`: `self.cache.popitem(last=False)` removes the entry at
the front of the order, i.e. the least recently used one. -/
def popLRU (c : LRUCache K V) : LRUCache K V :=
  { c with entries := c.entries.drop 1 }

/-- `OrderedDict.move_to_end(key)`: move the binding of `key` to the back
of the order, keeping its value. -/
def moveToEnd (k : K) (entries : List (K × V)) : List (K × V) :=
  match alookup k entries with
  | none => entries
  | some v => entries.filter (fun p => p.1 ≠ k) ++ [(k, v)]

/-- Python `self.cache[key] = value`: rewrite the binding in place when the
key is present, otherwise append a new binding at the back. -/
def assign (k : K) (v : V) (entries : List (K × V)) : List (K × V) :=
  match alookup k entries with
  | none => entries ++ [(k, v)]
  | some _ => aupdate k v entries

/-- `LRUCache.set`: evict the LRU entry whenever the cache is full (the
membership of `key` is never consulted), then assign, then — when
`self.capacity` is truthy, i.e. neither `None` nor `0` — move the key to
the most-recent end. -/
def set (c : LRUCache K V) (k : K) (v : V) : LRUCache K V :=
  let c1 := if c.is_full then c.popLRU else c
  let e1 := assign k v c1.entries
  let truthyCapacity : Bool :=
    match c.capacity with
    | none => false
    | some cap => cap ≠ 0
  { c1 with entries := if truthyCapacity then moveToEnd k e1 else e1 }

/-- `LRUCache.get` restricted to its cache effect: promote a present key to
most recent; misses leave the order unchanged. -/
def get (c : LRUCache K V) (k : K) : Option V × LRUCache K V :=
  match alookup k c.entries with
  | none => (none, c)
  | some v =>
    (some v,
      { c with
        entries :=
          if c.capacity.isSome then moveToEnd k c.entries else c.entries })

end LRUCache

/-! ## PyDNS query key (`dnscrawler/pydns.py`, `PyDNS.query`)

`query` builds its LRU-cache and in-flight-coalescing key with
`f"{domain}${nameserver}${'-'.join(record_types)}"`: the record types are
joined in the order given, without sorting. -/

/-- The cache/coalescing key formed at the top of `PyDNS.query`. -/
def queryKey (domain nameserver : String) (record_types : List String) :
    String :=
  domain ++ "$" ++ nameserver ++ "$" ++ String.intercalate "-" record_types

/-! ## PyDNS.dns_request response compilation (`dnscrawler/pydns.py`)

After `asyncio.gather` has produced one sub-response per record type,
`dns_request` walks the record types in order.  A sub-response whose rcode
is the string `"timeout"` (modelled as `none`) makes it set
`rcodes['timeout'] = True` and return immediately with no records — but the
`rcodes` dict already holds the entries written for the record types
processed before it.  Otherwise it records `rcodes[rdtype] = rcode` and
accumulates the records. -/

/-- One gathered sub-response of `send_request`: `rcode = none` models the
`"timeout"` rcode, otherwise the integer DNS rcode. -/
structure SubResponse where
  rcode : Option Nat
  records : List String
deriving DecidableEq, Repr

/-- The result of the compilation loop: the per-record-type rcode entries
written so far, whether the key `"timeout"` is present, and the records. -/
structure DnsRequestResult where
  typeRcodes : List (String × Nat)
  hasTimeout : Bool
  records : List String
deriving DecidableEq, Repr

/-- The `for i, rdtype_text in enumerate(record_types)` loop of
`dns_request`, threading the `rcodes` and `records` accumulators. -/
def dnsRequestCompileGo :
    List (String × SubResponse) → List (String × Nat) → List String →
    DnsRequestResult
  | [], rc, recs => ⟨rc, false, recs⟩
  | (rt, resp) :: rest, rc, recs =>
    match resp.rcode with
    | none => ⟨rc, true, []⟩
    | some c => dnsRequestCompileGo rest (rc ++ [(rt, c)]) (recs ++ resp.records)

/-- `PyDNS.dns_request` restricted to its response-compilation loop, taking
the gathered (record type, sub-response) pairs in request order. -/
def dns_request (pairs : List (String × SubResponse)) : DnsRequestResult :=
  dnsRequestCompileGo pairs [] []

/-! ## RateLimiter (`dnscrawler/ratelimiter.py`)

`run` fires a pending window reset that is due, lazily creates the reset
timer (`reset_limit` zeroes `current_actions_per_window` after
`action_window` seconds), and admits the task unless the counter equals
`max_actions`; a blocked caller waits for the reset event and then re-runs.

The simulation below is exact for traces in which each `run` call returns
before the next one arrives (so arrival times are processed in order and at
most one caller is ever waiting); the refuting trace and the amended
properties live in that fragment.  Time is in whole seconds. -/

structure RLState where
  resetAt : Option Nat
  count : Nat
deriving DecidableEq, Repr

/-- The pending `reset_limit` timer fires if its deadline has passed:
`current_actions_per_window = 0`, `awaiting_reset = False`. -/
def rlFire (st : RLState) (t : Nat) : RLState :=
  match st.resetAt with
  | some r => if r ≤ t then ⟨none, 0⟩ else st
  | none => st

/-- Top of `run`: if `awaiting_reset` is false, create the reset task; it
will fire `action_window` seconds from now. -/
def rlSchedule (actionWindow : Nat) (st : RLState) (t : Nat) : RLState :=
  match st.resetAt with
  | none => ⟨some (t + actionWindow), st.count⟩
  | some _ => st

/-- `RateLimiter.ratelimit_hit`: `current_actions_per_window ==
max_actions_per_window`. -/
def ratelimit_hit (maxActions : Nat) (st : RLState) : Bool :=
  st.count == maxActions

/-- One `run(action)` call arriving at time `t`: returns the successor
state and the time at which the task is admitted (the `await action`).  A
caller that hits the limit waits for the reset event, which releases it at
the reset time `r`; its re-entrant `run` then schedules the next window and
admits it (for `max_actions > 0`). -/
def rlArrive (maxActions actionWindow : Nat) (st : RLState) (t : Nat) :
    RLState × Nat :=
  let st1 := rlSchedule actionWindow (rlFire st t) t
  if ratelimit_hit maxActions st1 then
    match st1.resetAt with
    | some r => (⟨some (r + actionWindow), 1⟩, r)
    | none => (⟨st1.resetAt, st1.count + 1⟩, t)
  else
    (⟨st1.resetAt, st1.count + 1⟩, t)

/-- Run a whole trace of `run` calls (arrival times in order), collecting
the admission times. -/
def rlRun (maxActions actionWindow : Nat) :
    RLState → List Nat → List Nat
  | _, [] => []
  | st, t :: ts =>
    let p := rlArrive maxActions actionWindow st t
    p.2 :: rlRun maxActions actionWindow p.1 ts

/-- The freshly constructed limiter: no reset pending, zero count. -/
def rlInit : RLState := ⟨none, 0⟩

/-- Number of admissions falling in the half-open sliding window
`[s, s + w)`. -/
def countInWindow (admissions : List Nat) (s w : Nat) : Nat :=
  (admissions.filter (fun t => decide (s ≤ t) && decide (t < s + w))).length

/-! ## NodeList.add merge (`dnscrawler/nodelist.py`)

Nodes are flattened to their xid-observable content: four boolean flags,
the misconfiguration tag set, and one xid set per trust label.  This is
the view `NodeList.add` merges: flags OR, `misconfigurations.update`,
and for each trust label a `NodeList.merge` of the edge lists, which
inserts every new xid not already present. -/

structure NodeRec where
  xid : String
  is_hazardous : Bool
  is_misconfigured : Bool
  is_empty_nonterminal : Bool
  is_public_suffix : Bool
  misconfigurations : List String
  trusts : List (String × List String)
deriving DecidableEq, Repr

/-- The xid set an edge label maps to; a missing label is the empty
`defaultdict(NodeList)` entry. -/
def trustEdges (n : NodeRec) (label : String) : List String :=
  (alookup label n.trusts).getD []

/-- Merge the new node's trust lists into the old node's
(`oldNode._trusts[key].merge(nodelist, ...)` for each key of the new
node): each label's edge set becomes the union. -/
def mergeTrusts (old : List (String × List String)) :
    List (String × List String) → List (String × List String)
  | [] => old
  | (k, xs) :: rest =>
    let acc :=
      match alookup k old with
      | none => old ++ [(k, xs)]
      | some ys => aupdate k (listUnion ys xs) old
    mergeTrusts acc rest

/-- The in-place merge `NodeList.add` performs on the stored node when the
incoming node's xid is already present (top-level call,
`merged_xids=None`). -/
def mergeNode (old new : NodeRec) : NodeRec :=
  { old with
    is_hazardous := old.is_hazardous || new.is_hazardous
    is_misconfigured := old.is_misconfigured || new.is_misconfigured
    is_public_suffix := old.is_public_suffix || new.is_public_suffix
    is_empty_nonterminal := old.is_empty_nonterminal || new.is_empty_nonterminal
    misconfigurations := listUnion old.misconfigurations new.misconfigurations
    trusts := mergeTrusts old.trusts new.trusts }

/-- `NodeList.add(node)` (top-level call): insert under the xid if absent,
otherwise merge into the stored node. -/
def nodeListAdd (nodes : List (String × NodeRec)) (n : NodeRec) :
    List (String × NodeRec) :=
  match alookup n.xid nodes with
  | none => nodes ++ [(n.xid, n)]
  | some old => aupdate n.xid (mergeNode old n) nodes

/-! ## Hostnames, the public-suffix extractor, and node parents
(`dnscrawler/node.py`)

`tldextract.extract` is an external pure collaborator; it is embedded with
an explicit public-suffix list: the suffix is the longest list entry the
name ends with, the domain is the label just above it, the subdomain is
the rest.  When no entry matches, the last label becomes the domain and
the suffix is empty (in that corner Python's `f"{domain}.{suffix}."`
builds a malformed doubled-dot string; the theorems below stay on names
whose suffix is recognized). -/

abbrev Label := String
abbrev Hostname := List Label

structure ExtractResult where
  subdomain : Hostname
  domain : Option Label
  suffix : Hostname
deriving DecidableEq, Repr

/-- Longest public-suffix-list entry that the name ends with ([] if none
matches). -/
def pslSuffix (psl : List Hostname) (labels : Hostname) : Hostname :=
  psl.foldl
    (fun best s =>
      if s.isSuffixOf labels && decide (best.length < s.length) then s
      else best)
    []

/-- `tldextract.extract` over an explicit public-suffix list.  The part
before the matched suffix splits into the domain (its last label) and the
subdomain (the rest); with no match the suffix is empty and the whole name
is the part before it. -/
def pslExtract (psl : List Hostname) (labels : Hostname) : ExtractResult :=
  let s := pslSuffix psl labels
  let pre := labels.take (labels.length - s.length)
  match pre.getLast? with
  | none => ⟨[], none, s⟩
  | some d => ⟨pre.dropLast, some d, s⟩

/-- The registrable domain `f"{extracted.domain}.{extracted.suffix}."` used
for `ns_name_sld` in `_parse_records` and for `active_resolutions` keys. -/
def registrableDomain (psl : List Hostname) (labels : Hostname) : Hostname :=
  let e := pslExtract psl labels
  match e.domain with
  | some d => d :: e.suffix
  | none => labels

/-- Whether a label list is a dotted-quad IPv4 literal; models the success
of `ipaddress.ip_address` on the hostname-shaped inputs considered here. -/
def isIpv4Name (labels : Hostname) : Bool :=
  labels.length == 4 &&
    labels.all (fun l => l ≠ "" && l.toList.all Char.isDigit)

/-- Whether some label contains a colon (`ip_address` would parse the name
as IPv6; also the check `":" not in name_parts[0]`). -/
def labelHasColon (labels : Hostname) : Bool :=
  labels.any (fun l => l.toList.contains ':')

inductive NodeType
  | nameserver
  | ipv4
  | ipv6
  | domain
  | subdomain
  | tld
  | public_suffix_tld
deriving DecidableEq, Repr

/-- `Node.infer_node_type`. -/
def infer_node_type (psl : List Hostname) (labels : Hostname)
    (is_ns : Bool) : NodeType :=
  if is_ns then NodeType.nameserver
  else if labels.length == 1 && !labelHasColon labels then NodeType.tld
  else if isIpv4Name labels then NodeType.ipv4
  else if labelHasColon labels then NodeType.ipv6
  else
    let e := pslExtract psl labels
    match e.domain with
    | none => NodeType.public_suffix_tld
    | some _ =>
      if e.subdomain = [] then NodeType.domain else NodeType.subdomain

/-- The parent name `Node.__init__` computes for a non-IP node: the
registrable domain when there is a subdomain, the suffix when there is a
domain, the label-drop superdomain for a multi-label public suffix, and
the name itself for a single label (then no edge is added). -/
def nodeParentName (psl : List Hostname) (labels : Hostname) : Hostname :=
  let e := pslExtract psl labels
  if e.subdomain ≠ [] then
    match e.domain with
    | some d => d :: e.suffix
    | none => e.suffix
  else
    match e.domain with
    | some _ => e.suffix
    | none => if labels.length > 1 then labels.drop 1 else labels

/-- The dependency graph restricted to what claim C6 observes: the set of
non-IP node names present and the provisioning edges added by
`Node.__init__` (`self.trusts(parent_node, "provisioning")`). -/
structure Graph where
  nodes : List Hostname
  provEdges : List (Hostname × Hostname)
deriving DecidableEq, Repr

/-- `NodeList.create_node` for a non-IP name: `Node.__init__` first creates
the parent node recursively through the node list, then the new node is
kept only if its xid is not already present (the parent side effects having
happened either way).  The fuel argument bounds the parent recursion; any
fuel above the label count is enough since parents are strictly shorter. -/
def createNodeFuel (psl : List Hostname) :
    Nat → Hostname → Graph → Graph
  | 0, _, g => g
  | fuel + 1, labels, g =>
    let p := nodeParentName psl labels
    let g1 := if p ≠ labels then createNodeFuel psl fuel p g else g
    if labels ∈ g1.nodes then g1
    else
      { nodes := labels :: g1.nodes,
        provEdges :=
          if p ≠ labels then (labels, p) :: g1.provEdges else g1.provEdges }

/-- `NodeList.create_node` with enough fuel for the whole parent chain. -/
def create_node (psl : List Hostname) (labels : Hostname) (g : Graph) :
    Graph :=
  createNodeFuel psl (labels.length + 1) labels g

/-- The parent-closure invariant the graph maintains: every stored non-IP
node whose computed parent differs from itself has its parent stored and a
provisioning edge to it. -/
def Graph.ParentClosed (psl : List Hostname) (g : Graph) : Prop :=
  ∀ n ∈ g.nodes, nodeParentName psl n ≠ n →
    (n, nodeParentName psl n) ∈ g.provEdges ∧ nodeParentName psl n ∈ g.nodes

/-! ## map_name locals and the hazard branch (`dnscrawler/dnsresolver.py`)

Lines 375–383 of `map_name`: when `dependencies` is an empty defaultdict
the locals `misconfigured_domains` and `hazardous_domains` are bound and
the two summary keys are inserted into `dependencies`; otherwise the else
branch binds `misconfigured_domains` but — through the misspelt assignment
`azardous_domains = dependencies['hazardous_domains']` — leaves the local
`hazardous_domains` unbound.  Lines 549–574: the hazard branch selects
`summary_target` from these locals; in Python, reading a local that is
assigned somewhere in the function but not yet bound raises
`UnboundLocalError`. -/

inductive SummaryTarget
  | hazardous
  | ipNsRecords
  | missingNsRecords
deriving DecidableEq, Repr

structure MapNameLocals where
  misconfiguredDomainsBound : Bool
  hazardousDomainsBound : Bool
deriving DecidableEq, Repr

/-- Which locals the prologue binds, as a function of `len(dependencies)`
at entry. -/
def mapNamePrologueLocals (dependenciesLen : Nat) : MapNameLocals :=
  if dependenciesLen = 0 then ⟨true, true⟩ else ⟨true, false⟩

/-- `len(dependencies)` after the prologue ran: the empty dict gains the
keys `misconfigured_domains` and `hazardous_domains`. -/
def dependenciesLenAfterPrologue (n : Nat) : Nat :=
  if n = 0 then n + 2 else n

/-- The `summary_target` selection of the hazard branch (`i == 0` is phase
parent): reading an unbound local raises. -/
def hazardBranchSummaryTarget (l : MapNameLocals) (phase : Nat)
    (lastLabelNumeric : Bool) : Except String SummaryTarget :=
  if phase = 0 then
    if lastLabelNumeric then
      if l.misconfiguredDomainsBound then Except.ok SummaryTarget.ipNsRecords
      else Except.error "UnboundLocalError"
    else
      if l.hazardousDomainsBound then Except.ok SummaryTarget.hazardous
      else Except.error "UnboundLocalError"
  else
    if l.misconfiguredDomainsBound then
      Except.ok SummaryTarget.missingNsRecords
    else Except.error "UnboundLocalError"

/-! ## map_name phase classification (`dnscrawler/dnsresolver.py` 432–585)

One verification phase gathers one `QueryResponse` per (nameserver, ip)
pair and folds it through the flags `has_valid_response`, `all_nxdomain`,
`empty_nonterminal` and the accumulator `new_auth_ns`.  The model below is
the phase of an invocation with `name == original_name`, so the
qname-minimization retry (lines 497–510) is not reachable; `new_auth_ns`
is tracked as the list of insertions, whose emptiness matches the
emptiness of the Python dict. -/

inductive QueryOutcome
  | timeout
  | emptyResp (rcode : Nat)
  | withRecords (parsedAuthNs : List (String × String))
deriving DecidableEq, Repr

structure PhaseFlags where
  has_valid_response : Bool
  all_nxdomain : Bool
  empty_nonterminal : Bool
  new_auth_ns : List (String × String)
deriving DecidableEq, Repr

/-- Folding one response (nameserver, ip, outcome) through the flag
updates of the response loop. -/
def phaseStep (f : PhaseFlags) (r : String × String × QueryOutcome) :
    PhaseFlags :=
  match r.2.2 with
  | QueryOutcome.timeout => f
  | QueryOutcome.emptyResp rc =>
    if rc = 3 then
      { f with has_valid_response := true, empty_nonterminal := false }
    else if rc = 0 then
      { f with
        has_valid_response := true
        all_nxdomain := false
        new_auth_ns := f.new_auth_ns ++ [(r.1, r.2.1)] }
    else
      { f with
        has_valid_response := true
        all_nxdomain := false
        empty_nonterminal := false }
  | QueryOutcome.withRecords parsed =>
    { f with
      has_valid_response := true
      all_nxdomain := false
      empty_nonterminal := false
      new_auth_ns := f.new_auth_ns ++ parsed }

/-- The whole response loop of one phase, starting from
`has_valid_response = False`, `all_nxdomain = True`,
`empty_nonterminal = True`, `new_auth_ns = {}`. -/
def phaseClassify (resps : List (String × String × QueryOutcome)) :
    PhaseFlags :=
  resps.foldl phaseStep ⟨false, true, true, []⟩

/-- The condition of lines 549–550 (hazard / missing-ns branch). -/
def hazardBranchTaken (resps : List (String × String × QueryOutcome))
    (nameInNonhazardous : Bool) : Bool :=
  let f := phaseClassify resps
  f.has_valid_response && f.all_nxdomain && f.new_auth_ns.isEmpty &&
    !nameInNonhazardous

/-- Whether the phase marks the current node `is_empty_nonterminal`
(line 583–584: the `elif empty_nonterminal` after the hazard branch). -/
def phaseMarksEmptyNonterminal
    (resps : List (String × String × QueryOutcome))
    (nameInNonhazardous : Bool) : Bool :=
  if hazardBranchTaken resps nameInNonhazardous then false
  else (phaseClassify resps).empty_nonterminal

/-- A response that keeps the `empty_nonterminal` flag alive: a timeout is
ignored, a NOERROR answer with zero records keeps it, everything else
clears it. -/
def respKeepsEmptyNonterminal : QueryOutcome → Bool
  | QueryOutcome.timeout => true
  | QueryOutcome.emptyResp rc => rc == 0
  | QueryOutcome.withRecords _ => false

/-! ## Resolution caches (`dnscrawler/dnsresolver.py`)

`DNSResolver` keeps `active_resolutions` (the cycle-holds added by
`_parse_records` line 298), `past_resolutions` (the completed-resolution
cache written at `map_name` step 6) and the glue cache `nameserver_ip`.
`map_name` is modelled by its effect on these caches: the cache check of
line 394, the superdomain recursion, and the epilogue
`self.active_resolutions.discard(name)` /
`self.past_resolutions[name] = new_auth_ns` of lines 586–592.  Querying
and record parsing are abstracted by an oracle giving each name's final
`new_auth_ns`; the model is exact for crawl segments in which every
nameserver met during the phases has glue, so `_parse_records` triggers no
nested re-resolution. -/

abbrev AuthNS := List (String × List String)

structure ResolverState where
  active_resolutions : List Hostname
  past_resolutions : List (Hostname × AuthNS)
  nameserver_ip : List (String × List String)
deriving DecidableEq, Repr

/-- `DNSResolver.__init__`: empty caches, glue seeded with the root
servers. -/
def resolverInit (rootServers : List (String × List String)) :
    ResolverState :=
  ⟨[], [], rootServers⟩

/-- `DNSResolver.map_name` on the resolution caches.  The recursion drops
the first label (`superdomain`); `oracle` supplies the `new_auth_ns` a
completed two-phase verification produces for each name. -/
def map_name (oracle : Hostname → AuthNS) :
    Hostname → ResolverState → ResolverState × AuthNS
  | [], st =>
    match alookup [] st.past_resolutions with
    | some cached => (st, cached)
    | none =>
      let newAuthNs := oracle []
      ({ st with
          active_resolutions :=
            st.active_resolutions.filter (fun n => n ≠ []),
          past_resolutions := ([], newAuthNs) :: st.past_resolutions },
        newAuthNs)
  | l :: ls, st =>
    match alookup (l :: ls) st.past_resolutions with
    | some cached => (st, cached)
    | none =>
      let st1 := if ls.isEmpty then st else (map_name oracle ls st).1
      let newAuthNs := oracle (l :: ls)
      ({ st1 with
          active_resolutions :=
            st1.active_resolutions.filter (fun n => n ≠ l :: ls),
          past_resolutions := (l :: ls, newAuthNs) :: st1.past_resolutions },
        newAuthNs)

/-- `_parse_records` lines 290–298: before re-resolving a glueless
out-of-bailiwick nameserver, its registrable domain is put on hold in
`active_resolutions` (if not already there). -/
def parseRecordsHoldActive (st : ResolverState) (nsNameSld : Hostname) :
    ResolverState :=
  if nsNameSld ∈ st.active_resolutions then st
  else { st with active_resolutions := nsNameSld :: st.active_resolutions }

/-- The per-crawl reset at the top of `get_host_dependencies` (line
630–631): only the glue cache is re-created; `active_resolutions` and
`past_resolutions` are untouched instance state. -/
def get_host_dependencies_init (rootServers : List (String × List String))
    (st : ResolverState) : ResolverState :=
  { st with nameserver_ip := rootServers }

/-! ## Association-list lemmas -/

@[simp]
theorem alookup_nil {α β : Type} [DecidableEq α] (k : α) :
    alookup (β := β) k [] = none := rfl

@[simp]
theorem alookup_cons {α β : Type} [DecidableEq α] (k a : α) (b : β)
    (rest : List (α × β)) :
    alookup k ((a, b) :: rest) =
      if a = k then some b else alookup k rest := rfl

theorem alookup_aupdate_ne {α β : Type} [DecidableEq α] (a k : α) (v : β)
    (l : List (α × β)) (hne : a ≠ k) :
    alookup a (aupdate k v l) = alookup a l := by
  induction l with
  | nil => rfl
  | cons p rest ih =>
    obtain ⟨x, y⟩ := p
    by_cases hx : x = k
    · have hxa : ¬x = a := fun h => hne (h ▸ hx)
      simp [aupdate, if_pos hx, alookup, hxa]
    · simp only [aupdate, if_neg hx, alookup]
      by_cases hxa : x = a
      · simp [hxa]
      · simp [hxa, ih]

theorem alookup_aupdate_self {α β : Type} [DecidableEq α] (k : α) (v w : β)
    (l : List (α × β)) (h : alookup k l = some w) :
    alookup k (aupdate k v l) = some v := by
  induction l with
  | nil => simp [alookup] at h
  | cons p rest ih =>
    obtain ⟨x, y⟩ := p
    by_cases hx : x = k
    · subst hx; simp [aupdate, alookup]
    · simp only [alookup, if_neg hx] at h
      simp [aupdate, if_neg hx, alookup, hx, ih h]

theorem aupdate_length {α β : Type} [DecidableEq α] (k : α) (v : β)
    (l : List (α × β)) : (aupdate k v l).length = l.length := by
  induction l with
  | nil => rfl
  | cons p rest ih =>
    obtain ⟨x, y⟩ := p
    by_cases hx : x = k <;> simp [aupdate, hx, ih]

theorem aupdate_map_fst {α β : Type} [DecidableEq α] (k : α) (v : β)
    (l : List (α × β)) : (aupdate k v l).map Prod.fst = l.map Prod.fst := by
  induction l with
  | nil => rfl
  | cons p rest ih =>
    obtain ⟨x, y⟩ := p
    by_cases hx : x = k <;> simp [aupdate, hx, ih]

theorem alookup_none_of_not_mem_keys {α β : Type} [DecidableEq α] (k : α)
    (l : List (α × β)) (h : k ∉ l.map Prod.fst) : alookup k l = none := by
  induction l with
  | nil => rfl
  | cons p rest ih =>
    obtain ⟨x, y⟩ := p
    simp only [List.map_cons, List.mem_cons] at h
    push_neg at h
    rw [alookup_cons, if_neg (fun he => h.1 he.symm), ih h.2]

theorem mem_keys_of_alookup_some {α β : Type} [DecidableEq α] (k : α)
    (v : β) (l : List (α × β)) (h : alookup k l = some v) :
    k ∈ l.map Prod.fst := by
  induction l with
  | nil => simp [alookup] at h
  | cons p rest ih =>
    obtain ⟨x, y⟩ := p
    by_cases hx : x = k
    · simp [hx]
    · simp only [alookup, if_neg hx] at h
      simp [ih h]

theorem alookup_filter_of_none {α β : Type} [DecidableEq α] (k : α)
    (p : α × β → Bool) (l : List (α × β)) (h : alookup k l = none) :
    alookup k (l.filter p) = none := by
  induction l with
  | nil => rfl
  | cons q rest ih =>
    obtain ⟨x, y⟩ := q
    by_cases hx : x = k
    · simp [alookup, hx] at h
    · simp only [alookup, if_neg hx] at h
      rw [List.filter_cons]
      by_cases hp : p (x, y) = true
      · simp only [hp, if_true]
        rw [alookup_cons, if_neg hx, ih h]
      · simp only [hp, if_false]
        exact ih h

theorem alookup_filter_ne_self {α β : Type} [DecidableEq α] (k : α)
    (l : List (α × β)) :
    alookup k (l.filter (fun p => p.1 ≠ k)) = none := by
  apply alookup_none_of_not_mem_keys
  intro hmem
  obtain ⟨p, hp, hfst⟩ := List.mem_map.mp hmem
  have := List.of_mem_filter hp
  simp only [decide_eq_true_eq] at this
  exact this hfst

theorem alookup_append_of_none {α β : Type} [DecidableEq α] (k : α)
    (l1 l2 : List (α × β)) (h : alookup k l1 = none) :
    alookup k (l1 ++ l2) = alookup k l2 := by
  induction l1 with
  | nil => rfl
  | cons p rest ih =>
    obtain ⟨x, y⟩ := p
    by_cases hx : x = k
    · simp [alookup, hx] at h
    · simp only [alookup, if_neg hx] at h
      simp [alookup, hx, ih h]

theorem alookup_append_of_some {α β : Type} [DecidableEq α] (k : α)
    (v : β) (l1 l2 : List (α × β)) (h : alookup k l1 = some v) :
    alookup k (l1 ++ l2) = some v := by
  induction l1 with
  | nil => simp [alookup] at h
  | cons p rest ih =>
    obtain ⟨x, y⟩ := p
    by_cases hx : x = k
    · rw [List.cons_append, alookup_cons, if_pos hx]
      rw [alookup_cons, if_pos hx] at h
      exact h
    · rw [List.cons_append, alookup_cons, if_neg hx]
      rw [alookup_cons, if_neg hx] at h
      exact ih h

theorem filter_ne_length_of_nodup {α β : Type} [DecidableEq α] (k : α)
    (l : List (α × β)) (hnd : (l.map Prod.fst).Nodup)
    (hmem : k ∈ l.map Prod.fst) :
    (l.filter (fun p => p.1 ≠ k)).length = l.length - 1 := by
  induction l with
  | nil => simp at hmem
  | cons p rest ih =>
    obtain ⟨x, y⟩ := p
    simp only [List.map_cons, List.nodup_cons] at hnd
    by_cases hx : x = k
    · subst hx
      have hrest : ∀ q ∈ rest, (q : α × β).1 ≠ x := by
        intro q hq hcontra
        exact hnd.1 (hcontra ▸ List.mem_map_of_mem Prod.fst hq)
      have hself : rest.filter (fun p => p.1 ≠ x) = rest := by
        apply List.filter_eq_self.mpr
        intro q hq
        simp only [decide_eq_true_eq]
        exact hrest q hq
      have hxf : decide (((x, y) : α × β).1 ≠ x) = false := by simp
      rw [List.filter_cons, hxf]
      simp only [Bool.false_eq_true, if_false, hself, List.length_cons]
      omega
    · simp only [List.map_cons, List.mem_cons] at hmem
      rcases hmem with h | h
      · exact absurd h.symm hx
      · have hlen := ih hnd.2 h
        have hpos : 0 < rest.length := by
          rcases rest with _ | ⟨q, rest⟩
          · simp at h
          · simp
        have hxt : decide (((x, y) : α × β).1 ≠ k) = true := by simp [hx]
        rw [List.filter_cons, hxt]
        simp only [if_true, List.length_cons]
        omega

theorem mem_listUnion {α : Type} [DecidableEq α] (x : α) (xs ys : List α) :
    x ∈ listUnion xs ys ↔ x ∈ xs ∨ x ∈ ys := by
  simp only [listUnion, List.mem_append, List.mem_filter,
    decide_eq_true_eq]
  by_cases hx : x ∈ xs
  · simp [hx]
  · simp [hx]

/-! ## Claim C1 -/

/-- **C1** (code_bug evidence): the spec says a crawl never raises and
always returns a summary, even when the hazard branch is reached in a
recursive `map_name` invocation.  The top-level invocation (entered with
an empty `dependencies`) does bind `hazardous_domains` and serves the
hazard branch, but any recursive invocation — `dependencies` then holds at
least the two keys the top-level prologue inserted — runs the else branch
whose misspelt `azardous_domains = dependencies['hazardous_domains']`
leaves the local `hazardous_domains` unbound, so its hazard branch (phase
parent, last label non-numeric) raises `UnboundLocalError` and the
exception propagates out of `get_host_dependencies`. -/
theorem c1_crawl_raises_on_recursive_hazard :
    hazardBranchSummaryTarget (mapNamePrologueLocals 0) 0 false =
      Except.ok SummaryTarget.hazardous ∧
    hazardBranchSummaryTarget
        (mapNamePrologueLocals (dependenciesLenAfterPrologue 0)) 0 false =
      Except.error "UnboundLocalError" := by
  constructor
  · rfl
  · rfl

/-! ## Claim C5 -/

/-- **C5** (counterexample): with record types `["NS", "A"]` where the NS
sub-request succeeds with rcode 0 and the A sub-request times out,
`dns_request` returns an rcodes map holding *both* the per-type entry
`NS → 0` and the key `"timeout"` — neither "exactly one entry per record
type attempted" nor "the single key timeout", contradicting the claim. -/
theorem c5_partial_rcodes_counterexample :
    dns_request [("NS", ⟨some 0, ["com. 172800 IN NS a.gtld-servers.net."]⟩),
                 ("A", ⟨none, []⟩)] =
      ⟨[("NS", 0)], true, []⟩ ∧
    ([("NS", 0)] : List (String × Nat)) ≠ [] := by
  constructor
  · rfl
  · simp

theorem dnsRequestCompileGo_spec (pairs : List (String × SubResponse))
    (rc : List (String × Nat)) (recs : List String) :
    dnsRequestCompileGo pairs rc recs =
      ⟨rc ++ (pairs.takeWhile (fun p => p.2.rcode.isSome)).map
          (fun p => (p.1, p.2.rcode.getD 0)),
        pairs.any (fun p => p.2.rcode.isNone),
        if pairs.any (fun p => p.2.rcode.isNone) then []
        else recs ++ (pairs.map (fun p => p.2.records)).flatten⟩ := by
  induction pairs generalizing rc recs with
  | nil => simp [dnsRequestCompileGo]
  | cons p rest ih =>
    obtain ⟨rt, resp⟩ := p
    match hrc : resp.rcode with
    | none =>
      simp [dnsRequestCompileGo, hrc, List.takeWhile_cons, List.any_cons]
    | some c =>
      simp only [dnsRequestCompileGo, hrc, ih, List.takeWhile_cons,
        List.any_cons, List.map_cons, List.flatten_cons,
        Option.isSome_some, Option.isNone_some, if_true,
        Option.getD_some, Bool.false_or]
      simp [List.append_assoc]

/-- **C5** (amended): `dns_request` stops at the *first* timed-out record
type: the returned rcodes map holds one entry for each record type that
preceded the first timeout (all of them when none timed out), plus the key
`"timeout"` iff some sub-request timed out, in which case no records are
returned; only when no sub-request times out are the records the
concatenation of all sub-responses. -/
theorem c5_dns_request_rcodes_amended
    (pairs : List (String × SubResponse)) :
    dns_request pairs =
      ⟨(pairs.takeWhile (fun p => p.2.rcode.isSome)).map
          (fun p => (p.1, p.2.rcode.getD 0)),
        pairs.any (fun p => p.2.rcode.isNone),
        if pairs.any (fun p => p.2.rcode.isNone) then []
        else (pairs.map (fun p => p.2.records)).flatten⟩ := by
  have h := dnsRequestCompileGo_spec pairs [] []
  simpa [dns_request] using h

/-! ## Claim C9 -/

/-- **C9** (counterexample): the key `PyDNS.query` builds joins the record
types in the order given, not sorted: the permutation `["A", "NS"]` of
`["NS", "A"]` produces a different key, so the two queries use different
cache entries rather than the same one. -/
theorem c9_query_key_not_sorted_counterexample :
    (["A", "NS"] : List String).Perm ["NS", "A"] ∧
    queryKey "example.com." "192.0.2.1" ["A", "NS"] ≠
      queryKey "example.com." "192.0.2.1" ["NS", "A"] := by
  constructor
  · decide
  · decide

/-- **C9** (amended): the cache/coalescing key is
`f"{domain}${nameserver}${'-'.join(record_types)}"` with the record types
in their given order; for every domain and nameserver, the two orderings
of the default NS/A record types map to distinct keys and hence distinct
cache entries. -/
theorem c9_query_key_order_amended (domain nameserver : String) :
    queryKey domain nameserver ["NS", "A"] ≠
      queryKey domain nameserver ["A", "NS"] := by
  intro h
  have hdata := congrArg String.data h
  simp only [queryKey, String.data_append] at hdata
  have h1 := List.append_cancel_left hdata
  have e1 : (String.intercalate "-" ["NS", "A"]).data =
      ['N', 'S', '-', 'A'] := rfl
  have e2 : (String.intercalate "-" ["A", "NS"]).data =
      ['A', '-', 'N', 'S'] := rfl
  rw [e1, e2] at h1
  exact absurd h1 (by decide)

/-! ## Claim C10 -/

/-- **C10**: `LRUCache.set` pops the least-recently-used entry whenever
the cache is full, before (and regardless of) checking whether the key is
already present; so updating an existing key that is not itself the LRU
entry in a full cache evicts the LRU key and leaves the cache one entry
below capacity, with the updated key bound to the new value. -/
theorem c10_lru_set_evicts_on_update {K V : Type} [DecidableEq K]
    (c : LRUCache K V) (cap : Nat) (k k0 : K) (v v0 w : V)
    (hcap : c.capacity = some cap)
    (hfull : c.entries.length = cap)
    (hnd : (c.entries.map Prod.fst).Nodup)
    (hhead : c.entries.head? = some (k0, v0))
    (hne : k0 ≠ k)
    (hmem : alookup k c.entries = some w) :
    (c.set k v).size = cap - 1 ∧
    alookup k0 (c.set k v).entries = none ∧
    alookup k (c.set k v).entries = some v := by
  obtain ⟨tail, hent⟩ : ∃ tail, c.entries = (k0, v0) :: tail := by
    rcases hl : c.entries with _ | ⟨p, tail⟩
    · rw [hl] at hhead; simp at hhead
    · rw [hl] at hhead
      simp only [List.head?_cons, Option.some.injEq] at hhead
      exact ⟨tail, by rw [hhead]⟩
  have hktail : alookup k tail = some w := by
    rw [hent, alookup_cons, if_neg hne] at hmem
    exact hmem
  have hndtail : (tail.map Prod.fst).Nodup := by
    rw [hent] at hnd
    simp only [List.map_cons, List.nodup_cons] at hnd
    exact hnd.2
  have hk0tail : k0 ∉ tail.map Prod.fst := by
    rw [hent] at hnd
    simp only [List.map_cons, List.nodup_cons] at hnd
    exact hnd.1
  have hisfull : c.is_full = true := by
    simp [LRUCache.is_full, hcap, LRUCache.size, hfull]
  have hcapPos : cap ≠ 0 := by
    rw [hent] at hfull
    simp only [List.length_cons] at hfull
    omega
  have hdrop : c.popLRU.entries = tail := by
    simp [LRUCache.popLRU, hent]
  have hassign : LRUCache.assign k v tail = aupdate k v tail := by
    simp [LRUCache.assign, hktail]
  have hupdlook : alookup k (aupdate k v tail) = some v :=
    alookup_aupdate_self k v w tail hktail
  have hset : (c.set k v).entries =
      (aupdate k v tail).filter (fun p => p.1 ≠ k) ++ [(k, v)] := by
    simp only [LRUCache.set, hisfull, if_true, hdrop, hassign, hcap,
      hcapPos]
    simp only [LRUCache.moveToEnd, hupdlook]
    split
    · rfl
    · next hc =>
      exact absurd (by simpa using hc : cap = 0) hcapPos
  refine ⟨?_, ?_, ?_⟩
  · have hkeys : k ∈ tail.map Prod.fst := mem_keys_of_alookup_some k w tail hktail
    have hndupd : ((aupdate k v tail).map Prod.fst).Nodup := by
      rw [aupdate_map_fst]; exact hndtail
    have hkeysupd : k ∈ (aupdate k v tail).map Prod.fst := by
      rw [aupdate_map_fst]; exact hkeys
    have hflen := filter_ne_length_of_nodup k (aupdate k v tail) hndupd hkeysupd
    have htaillen : tail.length = cap - 1 := by
      rw [hent] at hfull
      simp only [List.length_cons] at hfull
      omega
    have htailPos : 0 < tail.length := by
      rcases tail with _ | _
      · simp [alookup] at hktail
      · simp
    simp only [LRUCache.size, hset, List.length_append, hflen,
      aupdate_length, List.length_cons, List.length_nil]
    omega
  · have h1 : alookup k0 tail = none := alookup_none_of_not_mem_keys k0 tail hk0tail
    have h2 : alookup k0 (aupdate k v tail) = none := by
      rw [alookup_aupdate_ne k0 k v tail hne]; exact h1
    have h3 : alookup k0 ((aupdate k v tail).filter (fun p => p.1 ≠ k)) = none :=
      alookup_filter_of_none k0 _ _ h2
    rw [hset, alookup_append_of_none k0 _ _ h3, alookup_cons,
      if_neg (fun he => hne he.symm)]
    rfl
  · rw [hset, alookup_append_of_none k _ _ (alookup_filter_ne_self k _),
      alookup_cons, if_pos rfl]

/-- Witness for C10 at a concrete full cache of capacity 2: updating the
most-recent key `"b"` evicts `"a"` and leaves one entry. -/
theorem c10_lru_set_evicts_on_update_witness :
    (LRUCache.set (K := String) (V := Nat) ⟨some 2, [("a", 1), ("b", 2)]⟩
        "b" 9).size = 2 - 1 ∧
    alookup "a" (LRUCache.set (K := String) (V := Nat)
        ⟨some 2, [("a", 1), ("b", 2)]⟩ "b" 9).entries = none ∧
    alookup "b" (LRUCache.set (K := String) (V := Nat)
        ⟨some 2, [("a", 1), ("b", 2)]⟩ "b" 9).entries = some 9 :=
  c10_lru_set_evicts_on_update ⟨some 2, [("a", 1), ("b", 2)]⟩ 2 "b" "a" 9 1 2
    rfl rfl (by decide) rfl (by decide) (by decide)

/-! ## Claim C3 -/

/-- **C3** (counterexample): with `max_actions = 2`, `action_window = 10`
and `run` arrivals at times 0, 9, 9, 11 (each call returning before the
next arrives), the limiter admits at times 0, 9, 10, 11: the blocked third
caller is released at the timer reset (t = 10) and the fourth is admitted
inside the new timer window, so the sliding window `[9, 19)` contains
three admissions — more than `max_actions`. -/
theorem c3_sliding_window_counterexample :
    rlRun 2 10 rlInit [0, 9, 9, 11] = [0, 9, 10, 11] ∧
    2 < countInWindow (rlRun 2 10 rlInit [0, 9, 9, 11]) 9 10 := by
  constructor
  · rfl
  · decide

/-- **C3** (amended): the limiter enforces a *timer* window, not a sliding
one.  For a positive `max_actions` and `action_window` and any state with
`current_actions_per_window ≤ max_actions`, one `run` call keeps the
counter within `max_actions`, and the task is admitted immediately (at its
arrival time) iff, after a due reset has fired and the reset timer is
scheduled, fewer than `max_actions` tasks have been admitted in the
current timer window; otherwise the caller is suspended until the window
resets.  Sliding windows spanning a reset boundary may see up to twice
`max_actions` admissions, as the counterexample shows. -/
theorem c3_fixed_window_amended (maxActions actionWindow : Nat)
    (st : RLState) (t : Nat) (hpos : 0 < maxActions)
    (hW : 0 < actionWindow) (hinv : st.count ≤ maxActions) :
    (rlArrive maxActions actionWindow st t).1.count ≤ maxActions ∧
    ((rlArrive maxActions actionWindow st t).2 = t ↔
      (rlSchedule actionWindow (rlFire st t) t).count < maxActions) := by
  obtain ⟨ra, cnt⟩ := st
  replace hinv : cnt ≤ maxActions := hinv
  rcases ra with _ | r
  · have hsched : rlSchedule actionWindow (rlFire ⟨none, cnt⟩ t) t =
        ⟨some (t + actionWindow), cnt⟩ := rfl
    by_cases hc : cnt = maxActions
    · have harr : rlArrive maxActions actionWindow ⟨none, cnt⟩ t =
          (⟨some (t + actionWindow + actionWindow), 1⟩, t + actionWindow) := by
        simp only [rlArrive]
        rw [hsched]
        simp [ratelimit_hit, hc]
      rw [harr, hsched]
      dsimp only
      exact ⟨hpos, by constructor <;> intro <;> omega⟩
    · have harr : rlArrive maxActions actionWindow ⟨none, cnt⟩ t =
          (⟨some (t + actionWindow), cnt + 1⟩, t) := by
        simp only [rlArrive]
        rw [hsched]
        simp [ratelimit_hit, hc]
      rw [harr, hsched]
      dsimp only
      exact ⟨by omega, by constructor <;> intro <;> omega⟩
  · by_cases hr : r ≤ t
    · have hsched : rlSchedule actionWindow (rlFire ⟨some r, cnt⟩ t) t =
          ⟨some (t + actionWindow), 0⟩ := by
        simp [rlFire, rlSchedule, hr]
      have h0 : (0 == maxActions) = false := by
        simp only [beq_eq_false_iff_ne, ne_eq]
        omega
      have harr : rlArrive maxActions actionWindow ⟨some r, cnt⟩ t =
          (⟨some (t + actionWindow), 1⟩, t) := by
        simp only [rlArrive]
        rw [hsched]
        simp [ratelimit_hit, h0]
      rw [harr, hsched]
      dsimp only
      exact ⟨hpos, by constructor <;> intro <;> omega⟩
    · have hsched : rlSchedule actionWindow (rlFire ⟨some r, cnt⟩ t) t =
          ⟨some r, cnt⟩ := by
        simp [rlFire, rlSchedule, hr]
      by_cases hc : cnt = maxActions
      · have harr : rlArrive maxActions actionWindow ⟨some r, cnt⟩ t =
          (⟨some (r + actionWindow), 1⟩, r) := by
          simp only [rlArrive]
          rw [hsched]
          simp [ratelimit_hit, hc]
        rw [harr, hsched]
        dsimp only
        exact ⟨hpos, by constructor <;> intro <;> omega⟩
      · have harr : rlArrive maxActions actionWindow ⟨some r, cnt⟩ t =
          (⟨some r, cnt + 1⟩, t) := by
          simp only [rlArrive]
          rw [hsched]
          simp [ratelimit_hit, hc]
        rw [harr, hsched]
        dsimp only
        exact ⟨by omega, by constructor <;> intro <;> omega⟩

/-- Witness for C3 (amended) at the fresh limiter with `max_actions = 2`,
`action_window = 10`, arrival at time 0. -/
theorem c3_fixed_window_amended_witness :
    (rlArrive 2 10 rlInit 0).1.count ≤ 2 ∧
    ((rlArrive 2 10 rlInit 0).2 = 0 ↔
      (rlSchedule 10 (rlFire rlInit 0) 0).count < 2) :=
  c3_fixed_window_amended 2 10 rlInit 0 (by decide) (by decide) (by decide)

/-! ## Claim C7 -/

/-- **C7** (counterexample): a phase in which the single nameserver timed
out still marks the node `is_empty_nonterminal`: the timeout is skipped
without clearing the `empty_nonterminal` flag and the hazard branch is not
taken because `has_valid_response` is false, so the `elif
empty_nonterminal` fires — with `new_auth_ns` empty and no NOERROR
response at all, contradicting the claim. -/
theorem c7_timeout_empty_nonterminal_counterexample :
    phaseMarksEmptyNonterminal
        [("a.root-servers.net.", "198.41.0.4", QueryOutcome.timeout)]
        false = true ∧
    (phaseClassify
        [("a.root-servers.net.", "198.41.0.4",
          QueryOutcome.timeout)]).new_auth_ns = [] := by
  exact ⟨rfl, rfl⟩

theorem phase_foldl_empty_nonterminal
    (resps : List (String × String × QueryOutcome)) (f0 : PhaseFlags) :
    (resps.foldl phaseStep f0).empty_nonterminal =
      (f0.empty_nonterminal &&
        resps.all (fun r => respKeepsEmptyNonterminal r.2.2)) := by
  induction resps generalizing f0 with
  | nil => simp
  | cons r rest ih =>
    simp only [List.foldl_cons, List.all_cons, ih]
    obtain ⟨ns, ip, oc⟩ := r
    cases oc with
    | timeout => simp [phaseStep, respKeepsEmptyNonterminal]
    | emptyResp rc =>
      by_cases h3 : rc = 3
      · simp [phaseStep, respKeepsEmptyNonterminal, h3]
      · by_cases h0 : rc = 0
        · simp [phaseStep, respKeepsEmptyNonterminal, h3, h0]
        · simp [phaseStep, respKeepsEmptyNonterminal, h3, h0]
    | withRecords parsed => simp [phaseStep, respKeepsEmptyNonterminal]

/-- **C7** (amended): a phase marks the node `is_empty_nonterminal`
exactly when the hazard/missing-ns branch is not taken and every response
of the phase was either a timeout or NOERROR with zero records
(vacuously so when there is no response at all); `new_auth_ns` being
non-empty is not required, and timeouts do not prevent the mark. -/
theorem c7_empty_nonterminal_amended
    (resps : List (String × String × QueryOutcome))
    (nameInNonhazardous : Bool) :
    phaseMarksEmptyNonterminal resps nameInNonhazardous =
      (!hazardBranchTaken resps nameInNonhazardous &&
        resps.all (fun r => respKeepsEmptyNonterminal r.2.2)) := by
  unfold phaseMarksEmptyNonterminal
  by_cases h : hazardBranchTaken resps nameInNonhazardous
  · simp [h]
  · simp only [h, if_false, Bool.not_false, Bool.true_and]
    have := phase_foldl_empty_nonterminal resps ⟨false, true, true, []⟩
    simpa [phaseClassify] using this

/-! ## Claim C2 -/

/-- **C2** (counterexample): `map_name`'s step 6 discards `name` itself,
not its registrable form.  Reachable trace (psl = {com}, all queried
nameservers glued, so the oracle abstraction applies): a first glueless
reference to `ns1.example.com.` puts the hold `example.com.` into
`active_resolutions` (line 298) and resolving it removes the hold again,
leaving `example.com.` in `past_resolutions`; a later glueless reference
to `ns3.example.com.` re-adds the hold, but this time the superdomain
recursion hits the `past_resolutions` cache and returns early, and step 6
only discards `ns3.example.com.` — so after the invocation on
`ns3.example.com.` returns, its registrable form `example.com.` is still
in `active_resolutions`, contradicting the claim. -/
theorem c2_active_resolutions_leak_counterexample :
    registrableDomain [["com"]] ["ns3", "example", "com"] ∈
      ((map_name (fun _ => [("ns.example.com.", ["192.0.2.1"])])
          ["ns3", "example", "com"]
          (parseRecordsHoldActive
            ((map_name (fun _ => [("ns.example.com.", ["192.0.2.1"])])
                ["ns1", "example", "com"]
                (parseRecordsHoldActive
                  (resolverInit [("a.root-servers.net.", ["198.41.0.4"])])
                  ["example", "com"])).1)
            ["example", "com"])).1).active_resolutions := by
  decide

/-- **C2** (amended): when a `map_name` invocation on `name` does not hit
the `past_resolutions` cache, its step 6 removes `name` itself from
`active_resolutions` and stores `new_auth_ns` under `name` in
`past_resolutions` (which is also the returned value).  The registrable
form of `name` is removed only by the superdomain recursion when that
recursion resolves it afresh; if the registrable domain is already cached
in `past_resolutions`, the hold `_parse_records` added stays in
`active_resolutions` after the invocation returns. -/
theorem c2_map_name_epilogue_amended (oracle : Hostname → AuthNS)
    (labels : Hostname) (st : ResolverState)
    (hfresh : alookup labels st.past_resolutions = none) :
    labels ∉ (map_name oracle labels st).1.active_resolutions ∧
    alookup labels (map_name oracle labels st).1.past_resolutions =
      some (oracle labels) ∧
    (map_name oracle labels st).2 = oracle labels := by
  have hnotmem : ∀ l : List Hostname, labels ∉
      l.filter (fun n => n ≠ labels) := by
    intro l hmem
    have := List.of_mem_filter hmem
    simp at this
  cases labels with
  | nil =>
    simp only [map_name, hfresh]
    refine ⟨hnotmem _, ?_, ?_⟩
    · simp [alookup_cons]
    · trivial
  | cons l ls =>
    simp only [map_name, hfresh]
    refine ⟨hnotmem _, ?_, ?_⟩
    · simp [alookup_cons]
    · trivial

/-- Witness for C2 (amended) at a fresh resolver and the name
`example.com.`. -/
theorem c2_map_name_epilogue_amended_witness :
    (["example", "com"] : Hostname) ∉
      (map_name (fun _ => [("ns.example.com.", ["192.0.2.1"])])
        ["example", "com"]
        (resolverInit
          [("a.root-servers.net.", ["198.41.0.4"])])).1.active_resolutions ∧
    alookup ["example", "com"]
      (map_name (fun _ => [("ns.example.com.", ["192.0.2.1"])])
        ["example", "com"]
        (resolverInit
          [("a.root-servers.net.", ["198.41.0.4"])])).1.past_resolutions =
      some [("ns.example.com.", ["192.0.2.1"])] ∧
    (map_name (fun _ => [("ns.example.com.", ["192.0.2.1"])])
      ["example", "com"]
      (resolverInit [("a.root-servers.net.", ["198.41.0.4"])])).2 =
      [("ns.example.com.", ["192.0.2.1"])] :=
  c2_map_name_epilogue_amended
    (fun _ => [("ns.example.com.", ["192.0.2.1"])]) ["example", "com"]
    (resolverInit [("a.root-servers.net.", ["198.41.0.4"])]) (by decide)

/-! ## Claim C4 -/

/-- **C4** (counterexample): `get_host_dependencies` re-creates only the
glue cache (`self.nameserver_ip = defaultdict(set, self.root_servers)`);
`past_resolutions` is instance state.  A second crawl of `example.com.` on
the same resolver is served the first crawl's cached `new_auth_ns` even
though the network (the oracle) now answers differently — an entry of
`past_resolutions` produced by one crawl is observable by the next. -/
theorem c4_state_persists_counterexample :
    (map_name (fun _ => [("b.example.com.", ["192.0.2.20"])])
        ["example", "com"]
        (get_host_dependencies_init
          [("a.root-servers.net.", ["198.41.0.4"])]
          (map_name (fun _ => [("a.example.com.", ["192.0.2.10"])])
              ["example", "com"]
              (resolverInit
                [("a.root-servers.net.", ["198.41.0.4"])])).1)).2 =
      [("a.example.com.", ["192.0.2.10"])] ∧
    ([("a.example.com.", ["192.0.2.10"])] : AuthNS) ≠
      [("b.example.com.", ["192.0.2.20"])] := by
  constructor
  · decide
  · decide

/-- **C4** (amended): per crawl, `get_host_dependencies` re-seeds only the
glue cache with the root servers (the graph is a fresh local); the
resolution caches `past_resolutions` and `active_resolutions` persist on
the resolver instance across crawls, and any name cached by an earlier
crawl is served from `past_resolutions` by the next crawl's `map_name`
without resolving. -/
theorem c4_crawl_reset_amended (roots : List (String × List String))
    (st : ResolverState) (oracle : Hostname → AuthNS) (labels : Hostname)
    (v : AuthNS)
    (hcache : alookup labels st.past_resolutions = some v) :
    (get_host_dependencies_init roots st).nameserver_ip = roots ∧
    (get_host_dependencies_init roots st).past_resolutions =
      st.past_resolutions ∧
    (get_host_dependencies_init roots st).active_resolutions =
      st.active_resolutions ∧
    (map_name oracle labels (get_host_dependencies_init roots st)).2 = v := by
  refine ⟨rfl, rfl, rfl, ?_⟩
  have hc : alookup labels
      (get_host_dependencies_init roots st).past_resolutions = some v :=
    hcache
  cases labels with
  | nil => simp only [map_name, hc]
  | cons l ls => simp only [map_name, hc]

/-- Witness for C4 (amended): a resolver whose previous crawl cached
`example.com.`. -/
theorem c4_crawl_reset_amended_witness :
    (get_host_dependencies_init [("a.root-servers.net.", ["198.41.0.4"])]
        ⟨[], [(["example", "com"], [("a.example.com.", ["192.0.2.10"])])],
          []⟩).nameserver_ip =
      [("a.root-servers.net.", ["198.41.0.4"])] ∧
    (get_host_dependencies_init [("a.root-servers.net.", ["198.41.0.4"])]
        ⟨[], [(["example", "com"], [("a.example.com.", ["192.0.2.10"])])],
          []⟩).past_resolutions =
      [(["example", "com"], [("a.example.com.", ["192.0.2.10"])])] ∧
    (get_host_dependencies_init [("a.root-servers.net.", ["198.41.0.4"])]
        ⟨[], [(["example", "com"], [("a.example.com.", ["192.0.2.10"])])],
          []⟩).active_resolutions = [] ∧
    (map_name (fun _ => [("b.example.com.", ["192.0.2.20"])])
        ["example", "com"]
        (get_host_dependencies_init
          [("a.root-servers.net.", ["198.41.0.4"])]
          ⟨[], [(["example", "com"], [("a.example.com.", ["192.0.2.10"])])],
            []⟩)).2 =
      [("a.example.com.", ["192.0.2.10"])] :=
  c4_crawl_reset_amended [("a.root-servers.net.", ["198.41.0.4"])]
    ⟨[], [(["example", "com"], [("a.example.com.", ["192.0.2.10"])])], []⟩
    (fun _ => [("b.example.com.", ["192.0.2.20"])]) ["example", "com"]
    [("a.example.com.", ["192.0.2.10"])] (by decide)

/-! ## Claim C8 -/

theorem mem_mergeTrusts_step {x : String} {label k : String}
    (xs : List String) (old : List (String × List String)) :
    (x ∈ (alookup label
        (match alookup k old with
          | none => old ++ [(k, xs)]
          | some ys => aupdate k (listUnion ys xs) old)).getD []) ↔
      (x ∈ (alookup label old).getD []) ∨ (k = label ∧ x ∈ xs) := by
  match hk : alookup k old with
  | none =>
    by_cases hl : k = label
    · subst hl
      rw [alookup_append_of_none k old [(k, xs)] hk]
      simp [alookup_cons, hk]
    · rcases ho : alookup label old with _ | ys
      · rw [alookup_append_of_none label old [(k, xs)] ho]
        simp [alookup_cons, hl, ho]
      · rw [alookup_append_of_some label ys old [(k, xs)] ho]
        simp [ho, hl]
  | some ys =>
    by_cases hl : k = label
    · subst hl
      rw [alookup_aupdate_self k (listUnion ys xs) ys old hk]
      simp [hk, mem_listUnion]
    · rw [alookup_aupdate_ne label k (listUnion ys xs) old
        (fun h => hl h.symm)]
      simp [hl]

theorem mem_mergeTrusts (x : String) (label : String) :
    ∀ (new old : List (String × List String)),
    (new.map Prod.fst).Nodup →
    ((x ∈ (alookup label (mergeTrusts old new)).getD []) ↔
      (x ∈ (alookup label old).getD []) ∨
      (x ∈ (alookup label new).getD [])) := by
  intro new
  induction new with
  | nil =>
    intro old _
    simp [mergeTrusts]
  | cons p rest ih =>
    intro old hnd
    obtain ⟨k, xs⟩ := p
    simp only [List.map_cons, List.nodup_cons] at hnd
    have hstep := @mem_mergeTrusts_step x label k xs old
    rw [mergeTrusts]
    rw [ih _ hnd.2]
    rw [hstep]
    by_cases hl : k = label
    · subst hl
      have hrest : alookup k rest = none := by
        apply alookup_none_of_not_mem_keys
        exact hnd.1
      simp only [alookup_cons, hrest, if_pos rfl, Option.getD_some,
        Option.getD_none, List.not_mem_nil, or_false]
      tauto
    · simp [alookup_cons, hl]

/-- **C8**: re-adding a node whose xid is already stored merges it into the
stored node monotonically: each of the four boolean flags becomes the
logical OR of the old and new flags, the misconfiguration tag set becomes
the union, and, for every trust label, the stored edge set becomes the
union of the old and new edge sets — nothing is ever cleared or removed. -/
theorem c8_nodelist_add_monotone (nodes : List (String × NodeRec))
    (old n : NodeRec)
    (hold : alookup n.xid nodes = some old)
    (hnd : (n.trusts.map Prod.fst).Nodup) :
    alookup n.xid (nodeListAdd nodes n) = some (mergeNode old n) ∧
    (mergeNode old n).is_hazardous = (old.is_hazardous || n.is_hazardous) ∧
    (mergeNode old n).is_misconfigured =
      (old.is_misconfigured || n.is_misconfigured) ∧
    (mergeNode old n).is_empty_nonterminal =
      (old.is_empty_nonterminal || n.is_empty_nonterminal) ∧
    (mergeNode old n).is_public_suffix =
      (old.is_public_suffix || n.is_public_suffix) ∧
    (∀ m, m ∈ (mergeNode old n).misconfigurations ↔
      m ∈ old.misconfigurations ∨ m ∈ n.misconfigurations) ∧
    (∀ label x, x ∈ trustEdges (mergeNode old n) label ↔
      x ∈ trustEdges old label ∨ x ∈ trustEdges n label) := by
  refine ⟨?_, rfl, rfl, rfl, rfl, ?_, ?_⟩
  · rw [nodeListAdd, hold]
    exact alookup_aupdate_self n.xid (mergeNode old n) old nodes hold
  · intro m
    exact mem_listUnion m old.misconfigurations n.misconfigurations
  · intro label x
    simp only [trustEdges, mergeNode]
    exact mem_mergeTrusts x label n.trusts old.trusts hnd

/-- Witness for C8 at two concrete nodes with xid `NSR$ns.example.com.`:
flags OR, tags union, per-label edge union. -/
theorem c8_nodelist_add_monotone_witness :
    alookup "NSR$ns.example.com."
        (nodeListAdd
          [("NSR$ns.example.com.",
            ⟨"NSR$ns.example.com.", true, false, false, false,
              ["invalid_ns_record"],
              [("parent", ["IP4$192.0.2.1"])]⟩)]
          ⟨"NSR$ns.example.com.", false, true, false, false,
            ["missing_ns_records"],
            [("parent", ["IP4$192.0.2.2"]), ("child", ["IP4$192.0.2.3"])]⟩) =
      some (mergeNode
        ⟨"NSR$ns.example.com.", true, false, false, false,
          ["invalid_ns_record"], [("parent", ["IP4$192.0.2.1"])]⟩
        ⟨"NSR$ns.example.com.", false, true, false, false,
          ["missing_ns_records"],
          [("parent", ["IP4$192.0.2.2"]), ("child", ["IP4$192.0.2.3"])]⟩) ∧
    ("invalid_ns_record" ∈ (mergeNode
        ⟨"NSR$ns.example.com.", true, false, false, false,
          ["invalid_ns_record"], [("parent", ["IP4$192.0.2.1"])]⟩
        ⟨"NSR$ns.example.com.", false, true, false, false,
          ["missing_ns_records"],
          [("parent", ["IP4$192.0.2.2"]),
            ("child", ["IP4$192.0.2.3"])]⟩).misconfigurations ↔
      "invalid_ns_record" ∈ (["invalid_ns_record"] : List String) ∨
      "invalid_ns_record" ∈ (["missing_ns_records"] : List String)) ∧
    ("IP4$192.0.2.1" ∈ trustEdges (mergeNode
        ⟨"NSR$ns.example.com.", true, false, false, false,
          ["invalid_ns_record"], [("parent", ["IP4$192.0.2.1"])]⟩
        ⟨"NSR$ns.example.com.", false, true, false, false,
          ["missing_ns_records"],
          [("parent", ["IP4$192.0.2.2"]), ("child", ["IP4$192.0.2.3"])]⟩)
        "parent" ↔
      "IP4$192.0.2.1" ∈ trustEdges
        ⟨"NSR$ns.example.com.", true, false, false, false,
          ["invalid_ns_record"], [("parent", ["IP4$192.0.2.1"])]⟩ "parent" ∨
      "IP4$192.0.2.1" ∈ trustEdges
        ⟨"NSR$ns.example.com.", false, true, false, false,
          ["missing_ns_records"],
          [("parent", ["IP4$192.0.2.2"]), ("child", ["IP4$192.0.2.3"])]⟩
        "parent") := by
  have h := c8_nodelist_add_monotone
    [("NSR$ns.example.com.",
      ⟨"NSR$ns.example.com.", true, false, false, false,
        ["invalid_ns_record"], [("parent", ["IP4$192.0.2.1"])]⟩)]
    ⟨"NSR$ns.example.com.", true, false, false, false,
      ["invalid_ns_record"], [("parent", ["IP4$192.0.2.1"])]⟩
    ⟨"NSR$ns.example.com.", false, true, false, false,
      ["missing_ns_records"],
      [("parent", ["IP4$192.0.2.2"]), ("child", ["IP4$192.0.2.3"])]⟩
    (by decide) (by decide)
  exact ⟨h.1, h.2.2.2.2.2.1 "invalid_ns_record",
    h.2.2.2.2.2.2 "parent" "IP4$192.0.2.1"⟩

/-! ## Claim C6 -/

/-- **C6** (counterexample): the multi-label public suffix `co.uk.` — a
`public_suffix_tld`-typed node under a list containing `uk` and `co.uk` —
is *not* its own parent: `Node.__init__` computes its parent as the
label-drop superdomain `uk.` and adds a provisioning edge to it,
contradicting the claim's rule that a public-suffix TLD is its own parent
and receives no edge. -/
theorem c6_public_suffix_parent_counterexample :
    infer_node_type [["uk"], ["co", "uk"]] ["co", "uk"] false =
      NodeType.public_suffix_tld ∧
    nodeParentName [["uk"], ["co", "uk"]] ["co", "uk"] = ["uk"] ∧
    (["co", "uk"], ["uk"]) ∈
      (create_node [["uk"], ["co", "uk"]] ["co", "uk"] ⟨[], []⟩).provEdges := by
  refine ⟨by decide, by decide, by decide⟩

theorem pslSuffix_aux (labels : Hostname) (l : List Hostname) :
    ∀ acc : Hostname, acc <:+ labels →
    (l.foldl (fun best s =>
      if s.isSuffixOf labels && decide (best.length < s.length) then s
      else best) acc) <:+ labels := by
  induction l with
  | nil =>
    intro acc h
    simpa using h
  | cons s rest ih =>
    intro acc h
    simp only [List.foldl_cons]
    by_cases hc : (s.isSuffixOf labels && decide (acc.length < s.length)) = true
    · rw [if_pos hc]
      exact ih s (List.isSuffixOf_iff_suffix.mp ((Bool.and_eq_true ..).mp hc).1)
    · rw [if_neg hc]
      exact ih acc h

theorem pslSuffix_isSuffix (psl : List Hostname) (labels : Hostname) :
    pslSuffix psl labels <:+ labels :=
  pslSuffix_aux labels psl [] List.nil_suffix

theorem pslExtract_decomp (psl : List Hostname) (labels : Hostname) :
    (pslExtract psl labels).subdomain ++
      (pslExtract psl labels).domain.toList ++
      (pslExtract psl labels).suffix = labels := by
  obtain ⟨pre0, hpre0⟩ := pslSuffix_isSuffix psl labels
  have htake : labels.take (labels.length - (pslSuffix psl labels).length)
      = pre0 := by
    have hlen0 : pre0.length + (pslSuffix psl labels).length =
        labels.length := by
      conv_rhs => rw [← hpre0]
      rw [List.length_append]
    have hlen2 : labels.length - (pslSuffix psl labels).length =
        pre0.length := by
      omega
    rw [hlen2, ← hpre0]
    exact List.take_left pre0 (pslSuffix psl labels)
  rcases hplast : pre0.getLast? with _ | d
  · have hpnil : pre0 = [] := List.getLast?_eq_none_iff.mp hplast
    rw [hpnil] at hpre0
    simp only [List.nil_append] at hpre0
    simp [pslExtract, htake, hplast, hpre0]
  · have hpne : pre0 ≠ [] := by
      intro hcon
      rw [hcon] at hplast
      simp at hplast
    have hd : pre0.getLast hpne = d := by
      have := List.getLast?_eq_getLast pre0 hpne
      rw [hplast] at this
      exact (Option.some.injEq ..).mp this.symm
    simp only [pslExtract, htake, hplast, Option.toList_some]
    rw [← hd, List.append_assoc]
    rw [← List.append_assoc pre0.dropLast [pre0.getLast hpne]
      (pslSuffix psl labels)]
    rw [List.dropLast_append_getLast hpne]
    exact hpre0

theorem nodeParentName_length_lt (psl : List Hostname) (labels : Hostname)
    (h : nodeParentName psl labels ≠ labels) :
    (nodeParentName psl labels).length < labels.length := by
  have hdec := pslExtract_decomp psl labels
  rcases he : pslExtract psl labels with ⟨sub, dom, suf⟩
  rw [he] at hdec
  simp only at hdec
  rcases dom with _ | d
  · simp only [nodeParentName, he] at h ⊢
    simp only [Option.toList_none, List.append_nil] at hdec
    by_cases hsub : sub = []
    · subst hsub
      simp only [ne_eq, not_true_eq_false, if_false] at h ⊢
      by_cases hgt : labels.length > 1
      · simp only [if_pos hgt] at h ⊢
        rw [List.length_drop]
        omega
      · simp only [if_neg hgt] at h
        exact absurd (by trivial) h
    · simp only [if_pos hsub] at h ⊢
      have hsublen : 0 < sub.length := List.length_pos.mpr hsub
      have hlab : labels.length = sub.length + suf.length := by
        rw [← hdec, List.length_append]
      omega
  · simp only [nodeParentName, he] at h ⊢
    simp only [Option.toList_some] at hdec
    have hlab : labels.length = sub.length + 1 + suf.length := by
      rw [← hdec]
      simp [List.length_append]
      omega
    by_cases hsub : sub = []
    · subst hsub
      simp only [ne_eq, not_true_eq_false, if_false] at h ⊢
      simp only [List.length_nil] at hlab
      omega
    · simp only [if_pos hsub] at h ⊢
      have hsublen : 0 < sub.length := List.length_pos.mpr hsub
      simp only [List.length_cons]
      omega

theorem createNodeFuel_spec (psl : List Hostname) :
    ∀ (fuel : Nat) (labels : Hostname) (g : Graph),
      labels.length < fuel → Graph.ParentClosed psl g →
      Graph.ParentClosed psl (createNodeFuel psl fuel labels g) ∧
      labels ∈ (createNodeFuel psl fuel labels g).nodes ∧
      (∀ x ∈ g.nodes, x ∈ (createNodeFuel psl fuel labels g).nodes) ∧
      (∀ e ∈ g.provEdges, e ∈ (createNodeFuel psl fuel labels g).provEdges) := by
  intro fuel
  induction fuel with
  | zero =>
    intro labels g hlt hg
    exact (Nat.not_lt_zero _ hlt).elim
  | succ n ih =>
    intro labels g hlt hg
    simp only [createNodeFuel]
    by_cases hp : nodeParentName psl labels ≠ labels
    · have hlt2 : (nodeParentName psl labels).length < n := by
        have := nodeParentName_length_lt psl labels hp
        omega
      obtain ⟨hPC1, hmem1, hmono1, hemono1⟩ :=
        ih (nodeParentName psl labels) g hlt2 hg
      simp only [if_pos hp]
      by_cases hin : labels ∈
          (createNodeFuel psl n (nodeParentName psl labels) g).nodes
      · simp only [if_pos hin]
        exact ⟨hPC1, hin, hmono1, hemono1⟩
      · simp only [if_neg hin]
        refine ⟨?_, List.mem_cons_self _ _, ?_, ?_⟩
        · intro m hm hpm
          rcases List.mem_cons.mp hm with hmeq | hm2
          · subst hmeq
            exact ⟨List.mem_cons_self _ _, List.mem_cons_of_mem _ hmem1⟩
          · obtain ⟨hedge, hnode⟩ := hPC1 m hm2 hpm
            exact ⟨List.mem_cons_of_mem _ hedge, List.mem_cons_of_mem _ hnode⟩
        · intro x hx
          exact List.mem_cons_of_mem _ (hmono1 x hx)
        · intro e heg
          exact List.mem_cons_of_mem _ (hemono1 e heg)
    · simp only [if_neg hp]
      push_neg at hp
      by_cases hin : labels ∈ g.nodes
      · simp only [if_pos hin]
        exact ⟨hg, hin, fun x hx => hx, fun e heg => heg⟩
      · simp only [if_neg hin]
        refine ⟨?_, List.mem_cons_self _ _,
          fun x hx => List.mem_cons_of_mem _ hx, fun e heg => heg⟩
        intro m hm hpm
        rcases List.mem_cons.mp hm with hmeq | hm2
        · subst hmeq
          exact absurd hp hpm
        · obtain ⟨hedge, hnode⟩ := hg m hm2 hpm
          exact ⟨hedge, List.mem_cons_of_mem _ hnode⟩

/-- **C6** (amended): for every non-IP node, `create_node` establishes at
creation a provisioning edge from the node to the parent name
`Node.__init__` computes — the registrable domain for a subdomain, the
suffix for a domain, the *label-drop superdomain for a multi-label public
suffix* (not the node itself), and the node itself (hence no edge) only
for a single label or the root — and creates the parent node too: creation
preserves, and extends to the new node, the closure that every stored node
with a distinct parent has its parent stored and a provisioning edge to
it. -/
theorem c6_parent_closure_amended (psl : List Hostname) (labels : Hostname)
    (g : Graph) (hg : Graph.ParentClosed psl g) :
    Graph.ParentClosed psl (create_node psl labels g) ∧
    labels ∈ (create_node psl labels g).nodes := by
  have h := createNodeFuel_spec psl (labels.length + 1) labels g
    (by omega) hg
  exact ⟨h.1, h.2.1⟩

/-- Witness for C6 (amended): creating `co.uk.` in the empty graph. -/
theorem c6_parent_closure_amended_witness :
    Graph.ParentClosed [["uk"], ["co", "uk"]]
      (create_node [["uk"], ["co", "uk"]] ["co", "uk"] ⟨[], []⟩) ∧
    (["co", "uk"] : Hostname) ∈
      (create_node [["uk"], ["co", "uk"]] ["co", "uk"] ⟨[], []⟩).nodes :=
  c6_parent_closure_amended [["uk"], ["co", "uk"]] ["co", "uk"] ⟨[], []⟩
    (by intro n hn; simp at hn)

end Dnscrawler
